import Mathlib

/-!
Shallow embedding of the `twilight-commands` crate: the typed value
conversion subsystem (`src/arguments.rs`, `src/argument_converters.rs`),
the command trie and executor (`src/executor/slash.rs`), and the
choice-enum derive validation (`twilight_commands_derive/src/choices.rs`).

External `twilight_model` types that the crate merely carries are modelled
at their interface: identifiers are `Nat`, the `Number` payload is Lean's
`Float` (IEEE binary64, the same representation as Rust's `f64`), message
flags are a record of the two flag bits the crate sets, and the response
`components` payload records the one container shape the crate builds
(a container holding text displays).
-/

namespace TwilightCommands

/-- Model of `twilight_model`'s `CommandOptionType` (the option kinds the
crate uses in `argument_converters.rs` and the choices derive). -/
inductive CommandOptionType where
  | string
  | integer
  | number
  | boolean
  | user
  | role
  | channel
  | mentionable
deriving DecidableEq, Repr

/-- Model of `twilight_model`'s `CommandOptionChoice`: a display name and a
string underlying value (the derive always emits
`CommandOptionChoiceValue::String`). -/
structure CommandOptionChoice where
  name : String
  value : String
deriving DecidableEq, Repr

/-- Model of `twilight_model`'s interaction `CommandOptionValue`: the tagged
union of raw values an invocation can carry. Identifier payloads are `Nat`
(snowflakes), the `number` payload is `Float` (Rust `f64`). -/
inductive CommandOptionValue where
  | string (s : String)
  | integer (i : Int)
  | number (f : Float)
  | boolean (b : Bool)
  | user (id : Nat)
  | role (id : Nat)
  | channel (id : Nat)
  | mentionable (id : Nat)
  | attachment (id : Nat)

/-- `src/arguments.rs` `enum Error` — the only runtime conversion error. -/
inductive ConvError where
  | invalidType
deriving DecidableEq, Repr

/-- `src/arguments.rs` `struct CommandOption`: one argument's exported
schema. `max_value`/`min_value` carry a `CommandOptionValue` as in the
source. -/
structure CommandOption where
  autocomplete : Option Bool
  channel_types : Option (List Nat)
  choices : Option (List CommandOptionChoice)
  name : Option String
  description : Option String
  kind : CommandOptionType
  max_length : Option Nat
  max_value : Option CommandOptionValue
  min_length : Option Nat
  min_value : Option CommandOptionValue
  required : Bool

/-- `CommandOption::new(kind)`: all constraints `None`, `required = true`. -/
def CommandOption.new (kind : CommandOptionType) : CommandOption where
  autocomplete := none
  channel_types := none
  choices := none
  name := none
  description := none
  kind := kind
  max_length := none
  max_value := none
  min_length := none
  min_value := none
  required := true

/-- Builder method `CommandOption::required` (sets the `required` field). -/
def CommandOption.setRequired (o : CommandOption) (b : Bool) : CommandOption :=
  { o with required := b }

/-- Builder method `CommandOption::choices`. -/
def CommandOption.setChoices (o : CommandOption) (cs : List CommandOptionChoice) :
    CommandOption :=
  { o with choices := some cs }

/-- `impl<T: ToOption> ToOption for Option<T>`: delegate to `T::to_option()`
and force `required = false`. The argument is T's schema. -/
def optionToOption (t : CommandOption) : CommandOption :=
  t.setRequired false

/-- `impl<T: OptionalArgumentConverter> OptionalArgumentConverter for Option<T>`
(`src/arguments.rs:52-59`): with a value present, `Ok(Some(T::convert(data)?))`
— note the inner converter receives the original `Option`, as in the source;
with no value present, `Ok(None)`. `tconv` is T's `OptionalArgumentConverter`
impl. -/
def optionConvert {α : Type}
    (tconv : Option CommandOptionValue → Except ConvError α) :
    Option CommandOptionValue → Except ConvError (Option α)
  | some v =>
    match tconv (some v) with
    | .ok a => .ok (some a)
    | .error e => .error e
  | none => .ok none

/-- `impl<T: ArgumentConverter> OptionalArgumentConverter for T`
(`src/arguments.rs:61-69`): a bare T delegates to its `ArgumentConverter`
when a value is present and fails with `InvalidType` on absence. -/
def bareConvert {α : Type}
    (tconv : CommandOptionValue → Except ConvError α) :
    Option CommandOptionValue → Except ConvError α
  | some v => tconv v
  | none => .error .invalidType

/-- The `numeric_converter!` macro's `ArgumentConverter::convert`
(`src/argument_converters.rs:31-52`): accept only the `Number` tag and
return `*value as $ty`. The macro is instantiated once per primitive
numeric target type; the per-type difference is exactly the Rust `as` cast
out of `f64`, passed here as `cast`. No schema constraint (in particular no
`min_value`/`max_value`) is consulted: the function does not even receive
the schema. -/
def numericConvert {α : Type} (cast : Float → α) :
    CommandOptionValue → Except ConvError α
  | .number v => .ok (cast v)
  | _ => .error .invalidType

/-- The tag of a raw value, for stating tag-dispatch properties. -/
def CommandOptionValue.isNumber : CommandOptionValue → Bool
  | .number _ => true
  | _ => false

/-- Model of `twilight_model`'s `MessageFlags`, restricted to the two bits
the crate ever sets (`EPHEMERAL`, `IS_COMPONENTS_V2`); a bitflag set is a
record of booleans. -/
structure MessageFlags where
  ephemeral : Bool
  componentsV2 : Bool
deriving DecidableEq, Repr

/-- Model of the one component shape `CommandExecutor::execute` builds with
`twilight_util`'s builders: a container with an accent colour holding text
displays. -/
structure Container where
  accentColor : Option Nat
  texts : List String
deriving DecidableEq, Repr

/-- Model of `InteractionResponseType` (only the variant the crate uses). -/
inductive InteractionResponseType where
  | channelMessageWithSource
deriving DecidableEq, Repr

/-- Model of `InteractionResponseData`, restricted to the fields the crate
sets; the remaining fields come from `..Default::default()` and stay at
their defaults. -/
structure InteractionResponseData where
  content : Option String := none
  components : Option (List Container) := none
  flags : Option MessageFlags := none
deriving DecidableEq, Repr

/-- Model of `twilight_model`'s `InteractionResponse`. -/
structure InteractionResponse where
  kind : InteractionResponseType
  data : Option InteractionResponseData
deriving DecidableEq, Repr

/-- Helper for `splitSpace`: walk the characters, cutting a new piece at
every space, keeping empty pieces. -/
def splitSpaceAux : List Char → String → List String
  | [], acc => [acc]
  | c :: rest, acc =>
    if c = ' ' then acc :: splitSpaceAux rest "" else splitSpaceAux rest (acc.push c)

/-- Model of Rust's `name.split(' ')` as used by `register` and `execute`:
split on every single space character, keeping empty pieces (so the result
is never the empty list). -/
def splitSpace (s : String) : List String :=
  splitSpaceAux s.toList ""

section Executor

/- `Ctx` models `Arc<Interaction>`, `Opt` models `CommandDataOption`, and
`S` the user-supplied shared state: all three are opaque to the crate and
passed through unchanged. -/
variable {C Ctx Opt S : Type}

/-- The response produced by `TypedAsyncHandler::handle` when
`C::from_command_data` fails (`src/executor/slash.rs:56-67`):
`Ok` of an ephemeral plain-content message. -/
def parseFailResponse : InteractionResponse where
  kind := .channelMessageWithSource
  data := some
    { content := some "Failed to parse command data."
      flags := some { ephemeral := true, componentsV2 := false } }

/-- The response built by `CommandExecutor::execute`'s `unwrap_or_else`
when the handler future resolves to `Err(e)` (`src/executor/slash.rs:216-232`):
an ephemeral components-v2 message holding one container with the rendered
error. The `anyhow::Error` is modelled by its rendered message string. -/
def handlerErrorResponse (e : String) : InteractionResponse where
  kind := .channelMessageWithSource
  data := some
    { components := some [{ accentColor := some 0xAA0000
                            texts := ["An error occurred: " ++ e] }]
      flags := some { ephemeral := true, componentsV2 := true } }

/-- `TypedAsyncHandler::handle` (`src/executor/slash.rs:47-72`): run
`C::from_command_data` on the raw options; on failure return the fixed
parse-failure response without ever calling the typed handler; on success
call the typed handler with the decoded aggregate, the interaction and the
state. The async future is modelled as its resolved `Result`, rendered as
`Except String`. -/
def typedHandle (dec : List Opt → Except String C)
    (handler : C → Ctx → S → Except String InteractionResponse)
    (interaction : Ctx) (interaction_data : List Opt) (state : S) :
    Except String InteractionResponse :=
  match dec interaction_data with
  | .error _ => .ok parseFailResponse
  | .ok c => handler c interaction state

/-- `struct CommandInfo` (`src/executor/slash.rs:75-79`): the type-erased
handler together with the command's option schemas and description. -/
structure CommandInfo (Ctx Opt S : Type) where
  handle : Ctx → List Opt → S → Except String InteractionResponse
  options : List CommandOption
  description : String

/-- `enum CommandTree` (`src/executor/slash.rs:81-87`): an internal `Node`
holding a map from segment name to child, or a `Leaf` holding a
`CommandInfo`. The `HashMap` is modelled as an association list with unique
keys; `insert` on the list replaces the binding in place. -/
inductive CommandTree (Ctx Opt S : Type) where
  | Node (children : List (String × CommandTree Ctx Opt S))
  | Leaf (info : CommandInfo Ctx Opt S)

/-- Association-list lookup, modelling `HashMap::get`. -/
def alookup {α : Type} : List (String × α) → String → Option α
  | [], _ => none
  | (k, v) :: rest, key => if k = key then some v else alookup rest key

/-- Association-list insert, modelling `HashMap::insert`: replace the
binding if the key is present, otherwise append. -/
def ainsert {α : Type} : List (String × α) → String → α → List (String × α)
  | [], key, v => [(key, v)]
  | (k, w) :: rest, key, v =>
    if k = key then (key, v) :: rest else (k, w) :: ainsert rest key v

/-- `CommandTree::new`: an empty `Node`. -/
def CommandTree.new : CommandTree Ctx Opt S := .Node []

/-- `CommandTree::insert` (`src/executor/slash.rs:97-115`). On a `Node`: an
empty path is a silent no-op; a single segment places (or replaces) a
`Leaf` at that key; otherwise recurse into the child at the head key,
creating an empty `Node` there if absent (`entry(..).or_insert_with`). On a
`Leaf` the source panics (`"Cannot insert into a leaf node"`); the panic is
modelled as `Except.error` of the panic message. -/
def CommandTree.insertE :
    CommandTree Ctx Opt S → List String → CommandInfo Ctx Opt S →
    Except String (CommandTree Ctx Opt S)
  | .Node children, [], _ => .ok (.Node children)
  | .Node children, key :: rest, info =>
    match rest with
    | [] => .ok (.Node (ainsert children key (.Leaf info)))
    | _ :: _ =>
      match CommandTree.insertE ((alookup children key).getD CommandTree.new)
          rest info with
      | .ok child' => .ok (.Node (ainsert children key child'))
      | .error e => .error e
  | .Leaf _, _, _ => .error "Cannot insert into a leaf node"

/-- `CommandTree::get` (`src/executor/slash.rs:117-136`): walk the path;
an empty path, a missing segment, a path that continues past a `Leaf`, or a
path ending on a `Node` all yield `None`; only a path ending exactly on a
`Leaf` yields its `CommandInfo`. -/
def CommandTree.get :
    CommandTree Ctx Opt S → List String → Option (CommandInfo Ctx Opt S)
  | .Node _, [] => none
  | .Node children, key :: rest =>
    match alookup children key with
    | some child =>
      match rest with
      | [] =>
        match child with
        | .Leaf info => some info
        | .Node _ => none
      | _ :: _ => child.get rest
    | none => none
  | .Leaf _, _ => none

/-- The node reached by walking a path (specification helper, not from the
source): `resolve t []` is `t` itself; a step from a `Node` follows the
child map; any step from a `Leaf` is stuck. `CommandTree.get` is
characterised by `resolve` in `get_eq_resolve`. -/
def CommandTree.resolve :
    CommandTree Ctx Opt S → List String → Option (CommandTree Ctx Opt S)
  | t, [] => some t
  | .Node children, key :: rest =>
    match alookup children key with
    | some child => child.resolve rest
    | none => none
  | .Leaf _, _ :: _ => none

/-- `struct CommandExecutor` (`src/executor/slash.rs:166-171`). -/
structure CommandExecutor (Ctx Opt S : Type) where
  commands : CommandTree Ctx Opt S

/-- `Default for CommandExecutor` (`src/executor/slash.rs:334-343`). -/
def CommandExecutor.default : CommandExecutor Ctx Opt S :=
  { commands := CommandTree.new }

/-- The statics of `trait Command` (`src/commands.rs`) for one command type
`C`: its name, description, option schemas and `from_command_data`. -/
structure CommandStatics (C Opt : Type) where
  name : String
  description : String
  options : List CommandOption
  from_command_data : List Opt → Except String C

/-- `CommandExecutor::register` (`src/executor/slash.rs:178-198`): wrap the
typed handler in a `TypedAsyncHandler`, build the `CommandInfo` from `C`'s
statics, split `C::name()` on spaces and insert. The source mutates `self`
and can panic inside `insert`; modelled as `Except` returning the updated
executor. -/
def CommandExecutor.register (ex : CommandExecutor Ctx Opt S)
    (spec : CommandStatics C Opt)
    (handler : C → Ctx → S → Except String InteractionResponse) :
    Except String (CommandExecutor Ctx Opt S) :=
  let info : CommandInfo Ctx Opt S :=
    { handle := typedHandle spec.from_command_data handler
      options := spec.options
      description := spec.description }
  match ex.commands.insertE (splitSpace spec.name) info with
  | .ok t => .ok { commands := t }
  | .error e => .error e

/-- A sequence of `register` calls with already type-erased entries: each
step performs exactly the `insert` that `register` performs (name split on
spaces). Stops at the first panic. -/
def CommandExecutor.registerAll :
    CommandExecutor Ctx Opt S → List (String × CommandInfo Ctx Opt S) →
    Except String (CommandExecutor Ctx Opt S)
  | ex, [] => .ok ex
  | ex, (name, info) :: rest =>
    match ex.commands.insertE (splitSpace name) info with
    | .ok t => CommandExecutor.registerAll { commands := t } rest
    | .error e => .error e

/-- `CommandExecutor::execute` (`src/executor/slash.rs:201-234`): split the
name on spaces, look up the leaf (`None` on a miss), run its handler, and
convert a handler `Err` into the uniform ephemeral error response via
`unwrap_or_else`. -/
def CommandExecutor.execute (ex : CommandExecutor Ctx Opt S) (name : String)
    (interaction : Ctx) (options : List Opt) (state : S) :
    Option InteractionResponse :=
  match ex.commands.get (splitSpace name) with
  | none => none
  | some info =>
    some (match info.handle interaction options state with
          | .ok r => r
          | .error e => handlerErrorResponse e)

/-- Model of `InteractionContextType` (the three contexts every exported
command is given in `build_commands`). -/
inductive InteractionContextType where
  | guild
  | botDm
  | privateChannel
deriving DecidableEq, Repr

/-- One option of an exported command, as assembled by `build_commands`
with `twilight_util`'s builders: a plain option (top-level command), a
subcommand carrying its own options, or a subcommand group carrying
`(name, description, options)` triples for its subcommands. -/
inductive ExportedOption where
  | plain (o : CommandOption)
  | subCommand (name : String) (description : String)
      (options : List CommandOption)
  | subCommandGroup (name : String) (description : String)
      (subcommands : List (String × String × List CommandOption))

/-- Model of `twilight_model`'s `Command` as `build_commands` produces it
(the kind is always `ChatInput` and is omitted). -/
structure Command where
  name : String
  description : String
  contexts : List InteractionContextType
  options : List ExportedOption

/-- The contexts every exported command receives
(`src/executor/slash.rs:252-256` and `267-271`). -/
def exportContexts : List InteractionContextType :=
  [.guild, .botDm, .privateChannel]

/-- The innermost loop of `build_commands`
(`src/executor/slash.rs:292-303`): collect a subcommand group's
subcommands from its children. Only `Leaf` children are pushed; a `Node`
child (a fourth-level group) falls outside the loop's `if let` and is
skipped without any error. -/
def buildGroupSubcommands :
    List (String × CommandTree Ctx Opt S) →
    List (String × String × List CommandOption)
  | [] => []
  | (n, .Leaf info) :: rest =>
    (n, info.description, info.options) :: buildGroupSubcommands rest
  | (_, .Node _) :: rest => buildGroupSubcommands rest

/-- The middle loop of `build_commands` (`src/executor/slash.rs:272-312`):
each `Leaf` grandchild becomes a subcommand, each `Node` grandchild
becomes a subcommand group with description `"No description provided"`
(the source's inner `if let Node` re-match always succeeds there, so its
`panic!` arm is dead code). -/
def buildGroupOptions :
    List (String × CommandTree Ctx Opt S) → List ExportedOption
  | [] => []
  | (n, .Leaf info) :: rest =>
    .subCommand n info.description info.options :: buildGroupOptions rest
  | (n, .Node sub) :: rest =>
    .subCommandGroup n "No description provided" (buildGroupSubcommands sub)
      :: buildGroupOptions rest

/-- One iteration of `build_commands`' outer loop
(`src/executor/slash.rs:241-316`): a top-level `Leaf` becomes a flat
command with its own options; a top-level `Node` becomes a command with
description `"No description provided"` holding subcommand/subcommand-group
options. -/
def buildCommand (name : String) (child : CommandTree Ctx Opt S) : Command :=
  match child with
  | .Leaf info =>
    { name := name
      description := info.description
      contexts := exportContexts
      options := info.options.map .plain }
  | .Node children =>
    { name := name
      description := "No description provided"
      contexts := exportContexts
      options := buildGroupOptions children }

/-- `CommandExecutor::build_commands` (`src/executor/slash.rs:237-322`):
realize the trie into the exported command list; the
`panic!("Root of command tree must be a node")` arm is modelled as
`Except.error`. -/
def CommandExecutor.build_commands (ex : CommandExecutor Ctx Opt S) :
    Except String (List Command) :=
  match ex.commands with
  | .Node children => .ok (children.map fun p => buildCommand p.1 p.2)
  | .Leaf _ => .error "Root of command tree must be a node"

end Executor

/-- One unit variant of a `#[derive(Choices)]` enum as seen by the derive
(`twilight_commands_derive/src/choices.rs`): the variant identifier and the
optional `#[choice(name = ..., value = ...)]` overrides. -/
structure ChoiceVariant where
  ident : String
  name : Option String
  value : Option String

/-- `choices.rs:43-59`: resolve each variant to
`(ident, display name, underlying value)`, both overrides defaulting to the
identifier text. -/
def resolveVariants (vs : List ChoiceVariant) :
    List (String × String × String) :=
  vs.map fun v => (v.ident, v.name.getD v.ident, v.value.getD v.ident)

/-- The two registration-time (derive-time) schema-construction errors of
`choices.rs`. -/
inductive DeriveError where
  | tooManyVariants
  | duplicateValue (value : String)
deriving DecidableEq, Repr

/-- `choices.rs:68-77`: walk the resolved variants with a seen-set; fail on
the first underlying value already seen. -/
def checkUniqueValues :
    List (String × String × String) → List String → Except DeriveError Unit
  | [], _ => .ok ()
  | (_, _, value) :: rest, seen =>
    if value ∈ seen then .error (.duplicateValue value)
    else checkUniqueValues rest (value :: seen)

/-- `choices.rs:89-93` (the generated `ArgumentConverter` match): return
the first variant whose underlying value equals the raw string, else
`InvalidType`. The enum variant is represented by its identifier. -/
def choiceMatch :
    List (String × String × String) → String → Except ConvError String
  | [], _ => .error .invalidType
  | (ident, _, value) :: rest, s =>
    if value = s then .ok ident else choiceMatch rest s

/-- The generated `ArgumentConverter::convert` (`choices.rs:108-119`):
require the `String` tag, then match against the declared values. -/
def choicesConvert (variants : List (String × String × String)) :
    CommandOptionValue → Except ConvError String
  | .string s => choiceMatch variants s
  | _ => .error .invalidType

/-- What a successful `#[derive(Choices)]` expansion provides: the
`ToOption` schema and the `ArgumentConverter` decode function. -/
structure DeriveOutput where
  to_option : CommandOption
  convert : CommandOptionValue → Except ConvError String

/-- `derive` in `choices.rs:34-122`: resolve the variants, reject more than
25 variants, reject any duplicate underlying value, and otherwise emit the
`ToOption` (String kind with the ordered choice list) and the
`ArgumentConverter` (string match). -/
def choicesDerive (vs : List ChoiceVariant) : Except DeriveError DeriveOutput :=
  let variants := resolveVariants vs
  if vs.length > 25 then .error .tooManyVariants
  else
    match checkUniqueValues variants [] with
    | .error e => .error e
    | .ok _ =>
      .ok { to_option := (CommandOption.new .string).setChoices
              (variants.map fun p => { name := p.2.1, value := p.2.2 })
            convert := choicesConvert variants }

/-- Specification helper: the `CommandInfo` of a tree node when it is a
`Leaf`. -/
def leafInfo {Ctx Opt S : Type} : CommandTree Ctx Opt S →
    Option (CommandInfo Ctx Opt S)
  | .Leaf i => some i
  | .Node _ => none

/-- A fixed successful response, used by the concrete handlers below. -/
def pongResponse : InteractionResponse where
  kind := .channelMessageWithSource
  data := some { content := some "pong" }

/-- A second fixed successful response, distinguishable from
`pongResponse`. -/
def pongResponse2 : InteractionResponse where
  kind := .channelMessageWithSource
  data := some { content := some "pong2" }

/-- A concrete registered entry (handler returns `pongResponse`). -/
def unitInfo1 : CommandInfo Unit Unit Unit where
  handle := fun _ _ _ => .ok pongResponse
  options := []
  description := "first"

/-- A second concrete registered entry (handler returns `pongResponse2`). -/
def unitInfo2 : CommandInfo Unit Unit Unit where
  handle := fun _ _ _ => .ok pongResponse2
  options := []
  description := "second"

/-- A decoder that always fails, modelling a `from_command_data` failure. -/
def decodeFail : List Unit → Except String Unit := fun _ => .error "bad data"

/-- A decoder that always succeeds. -/
def decodeOk : List Unit → Except String Unit := fun _ => .ok ()

/-- A typed handler that succeeds with `pongResponse`. -/
def handlerOk : Unit → Unit → Unit → Except String InteractionResponse :=
  fun _ _ _ => .ok pongResponse

/-- A typed handler that fails with the message `"boom"`. -/
def handlerBoom : Unit → Unit → Unit → Except String InteractionResponse :=
  fun _ _ _ => .error "boom"

/-- The registered entry of the decode-failure fixture: failing decoder,
succeeding handler. -/
def cInfoDecodeFail : CommandInfo Unit Unit Unit where
  handle := typedHandle decodeFail handlerOk
  options := []
  description := "d"

/-- The registered entry of the handler-failure fixture: succeeding
decoder, failing handler. -/
def cInfoHandlerFail : CommandInfo Unit Unit Unit where
  handle := typedHandle decodeOk handlerBoom
  options := []
  description := "d"

/-- An executor whose one command `"c"` has a failing decoder and a
succeeding handler. -/
def exDecodeFail : CommandExecutor Unit Unit Unit where
  commands := .Node [("c", .Leaf cInfoDecodeFail)]

/-- An executor whose one command `"c"` has a succeeding decoder and a
failing handler. -/
def exHandlerFail : CommandExecutor Unit Unit Unit where
  commands := .Node [("c", .Leaf cInfoHandlerFail)]

/-- Whether a response is flagged ephemeral (visible only to the invoker). -/
def InteractionResponse.isEphemeral (r : InteractionResponse) : Bool :=
  match r.data with
  | some d =>
    match d.flags with
    | some f => f.ephemeral
    | none => false
  | none => false

/-- A trie with a registered leaf at depth four: path `a b c d`. -/
def depth4Tree : CommandTree Unit Unit Unit :=
  .Node [("a", .Node [("b", .Node [("c", .Node [("d", .Leaf unitInfo1)])])])]

/-- The executor holding `depth4Tree`. -/
def depth4Exec : CommandExecutor Unit Unit Unit where
  commands := depth4Tree

/-- A trie whose top-level entry `"g"` is a Group with a Leaf descendant
`"g x"`. -/
def groupExec : CommandExecutor Unit Unit Unit where
  commands := .Node [("g", .Node [("x", .Leaf unitInfo1)])]

/-- An executor with `"ping"` bound to `unitInfo1`, to be re-registered. -/
def pingExec : CommandExecutor Unit Unit Unit where
  commands := .Node [("ping", .Leaf unitInfo1)]

/-- The statics of a second `"ping"` command used for re-registration. -/
def pingStatics2 : CommandStatics Unit Unit where
  name := "ping"
  description := "second"
  options := []
  from_command_data := decodeOk

/-- The typed handler of the second `"ping"` registration. -/
def pingHandler2 : Unit → Unit → Unit → Except String InteractionResponse :=
  fun _ _ _ => .ok pongResponse2

/-- A trie in which `"note"` is a Group holding the Leaf `"note add"`. -/
def noteTree : CommandTree Unit Unit Unit :=
  .Node [("note", .Node [("add", .Leaf unitInfo1)])]

/-- Choice variants for the derive fixtures: `n` unit variants with
distinct single-letter identifiers and no overrides. -/
def letterVariants (n : Nat) : List ChoiceVariant :=
  ((List.range n).map fun k =>
    { ident := String.mk [Char.ofNat (97 + k)], name := none, value := none })

/-- Two variants sharing the same underlying value through an explicit
`value` override. -/
def dupVariants : List ChoiceVariant :=
  [{ ident := "A", name := none, value := some "same" },
   { ident := "B", name := none, value := some "same" }]

/-- A registration sequence with two commands: `"ping"` and `"note add"`. -/
def regsC8 : List (String × CommandInfo Unit Unit Unit) :=
  [("ping", unitInfo1), ("note add", unitInfo2)]

/-- The executor produced by running `regsC8` from the default executor. -/
def c8Result : CommandExecutor Unit Unit Unit where
  commands := .Node
    [("ping", .Leaf unitInfo1), ("note", .Node [("add", .Leaf unitInfo2)])]

/-- A registration sequence where the second path strictly extends the
first: `"foo"` then `"foo bar"`. -/
def c9Regs : List (String × CommandInfo Unit Unit Unit) :=
  [("foo", unitInfo1), ("foo bar", unitInfo2)]

/-- Inserting a binding makes it the one found at its key. -/
theorem alookup_ainsert_self {α : Type} (l : List (String × α)) (k : String)
    (v : α) : alookup (ainsert l k v) k = some v := by
  induction l with
  | nil => simp [ainsert, alookup]
  | cons hd tl ih =>
    obtain ⟨k', v'⟩ := hd
    by_cases hk : k' = k <;> simp [ainsert, alookup, hk, ih]

/-- On every nonempty path, `CommandTree.get` is the `Leaf`-projection of
the node `resolve` reaches. -/
theorem CommandTree.get_eq_resolve {Ctx Opt S : Type} :
    ∀ (p : List String) (t : CommandTree Ctx Opt S), p ≠ [] →
      t.get p = (t.resolve p).bind leafInfo := by
  intro p
  induction p with
  | nil => intro t h; exact absurd rfl h
  | cons k rest ih =>
    intro t _
    cases t with
    | Leaf info => simp [CommandTree.get, CommandTree.resolve]
    | Node children =>
      cases rest with
      | nil =>
        simp only [CommandTree.get, CommandTree.resolve]
        cases halk : alookup children k with
        | none => simp
        | some child =>
          cases child <;> simp [leafInfo, CommandTree.resolve]
      | cons k2 rest2 =>
        simp only [CommandTree.get, CommandTree.resolve]
        cases halk : alookup children k with
        | none => simp
        | some child => simpa using ih child (by simp)

/-- `resolve` composes along path concatenation. -/
theorem CommandTree.resolve_append {Ctx Opt S : Type} :
    ∀ (p q : List String) (t : CommandTree Ctx Opt S),
      t.resolve (p ++ q) = (t.resolve p).bind fun n => n.resolve q := by
  intro p
  induction p with
  | nil => intro q t; simp [CommandTree.resolve]
  | cons k rest ih =>
    intro q t
    cases t with
    | Leaf info => simp [CommandTree.resolve]
    | Node children =>
      simp only [List.cons_append, CommandTree.resolve]
      cases halk : alookup children k with
      | none => simp
      | some child => simpa using ih q child

/-- If a nonempty path currently resolves to some node, `insertE` on that
path succeeds and afterwards the path resolves to the new `Leaf`. -/
theorem CommandTree.insertE_ok_of_resolve {Ctx Opt S : Type} :
    ∀ (p : List String) (t : CommandTree Ctx Opt S)
      (i : CommandInfo Ctx Opt S) (n : CommandTree Ctx Opt S), p ≠ [] →
      t.resolve p = some n →
      ∃ t', t.insertE p i = .ok t' ∧ t'.resolve p = some (.Leaf i) := by
  intro p
  induction p with
  | nil => intro t i n h; exact absurd rfl h
  | cons k rest ih =>
    intro t i n _ hres
    cases t with
    | Leaf info => simp [CommandTree.resolve] at hres
    | Node children =>
      cases rest with
      | nil =>
        refine ⟨.Node (ainsert children k (.Leaf i)), by simp [CommandTree.insertE], ?_⟩
        simp [CommandTree.resolve, alookup_ainsert_self]
      | cons k2 rest2 =>
        simp only [CommandTree.resolve] at hres
        cases halk : alookup children k with
        | none => rw [halk] at hres; simp at hres
        | some child =>
          rw [halk] at hres
          simp only [Option.some.injEq] at hres
          obtain ⟨child', hins, hres'⟩ := ih child i n (by simp) hres
          refine ⟨.Node (ainsert children k child'), ?_, ?_⟩
          · simp [CommandTree.insertE, halk, hins]
          · simp [CommandTree.resolve, alookup_ainsert_self, hres']

/-- `insertE` on a `Node`, when it succeeds, yields a `Node`. -/
theorem CommandTree.insertE_node_ok {Ctx Opt S : Type}
    (children : List (String × CommandTree Ctx Opt S)) (p : List String)
    (i : CommandInfo Ctx Opt S) (t' : CommandTree Ctx Opt S)
    (h : CommandTree.insertE (.Node children) p i = .ok t') :
    ∃ m, t' = .Node m := by
  match p with
  | [] =>
    simp only [CommandTree.insertE, Except.ok.injEq] at h
    exact ⟨children, h.symm⟩
  | [k] =>
    simp only [CommandTree.insertE, Except.ok.injEq] at h
    exact ⟨_, h.symm⟩
  | k :: k2 :: rest =>
    simp only [CommandTree.insertE] at h
    cases hins : CommandTree.insertE ((alookup children k).getD CommandTree.new)
        (k2 :: rest) i with
    | ok c => rw [hins] at h; simp at h; exact ⟨_, h.symm⟩
    | error e => rw [hins] at h; simp at h

/-- A `registerAll` run starting from a `Node` root that succeeds ends with
a `Node` root. -/
theorem CommandExecutor.registerAll_node {Ctx Opt S : Type} :
    ∀ (regs : List (String × CommandInfo Ctx Opt S))
      (m : List (String × CommandTree Ctx Opt S))
      (ex' : CommandExecutor Ctx Opt S),
      CommandExecutor.registerAll ⟨.Node m⟩ regs = .ok ex' →
      ∃ m', ex'.commands = .Node m' := by
  intro regs
  induction regs with
  | nil =>
    intro m ex' h
    simp only [CommandExecutor.registerAll, Except.ok.injEq] at h
    exact ⟨m, by rw [← h]⟩
  | cons hd rest ih =>
    intro m ex' h
    obtain ⟨name, info⟩ := hd
    simp only [CommandExecutor.registerAll] at h
    cases hins : CommandTree.insertE (.Node m) (splitSpace name) info with
    | ok t =>
      rw [hins] at h
      obtain ⟨m2, hm2⟩ := CommandTree.insertE_node_ok m (splitSpace name) info t hins
      subst hm2
      exact ih m2 ex' h
    | error e => rw [hins] at h; simp at h

/-- `splitSpaceAux` always produces at least one piece. -/
theorem splitSpaceAux_ne_nil : ∀ (l : List Char) (acc : String),
    splitSpaceAux l acc ≠ [] := by
  intro l
  induction l with
  | nil => intro acc; simp [splitSpaceAux]
  | cons c rest ih =>
    intro acc
    by_cases hc : c = ' ' <;> simp [splitSpaceAux, hc, ih]

/-- Splitting a name on spaces always produces at least one segment. -/
theorem splitSpace_ne_nil (s : String) : splitSpace s ≠ [] :=
  splitSpaceAux_ne_nil s.toList ""

/-- Claim C3: for every trie and every path of 1–3 segments, `get` returns
nothing when the walk gets stuck (a segment is missing) and also when the
path terminates on an internal `Node` rather than a `Leaf`; consequently
`execute` returns nothing on such a path, even when the `Node` has `Leaf`
descendants — a group name alone is never dispatchable. -/
theorem claim_C3 {I O S : Type} :
    (∀ (t : CommandTree I O S) (p : List String),
        1 ≤ p.length → p.length ≤ 3 →
        (t.resolve p = none ∨ ∃ m, t.resolve p = some (.Node m)) →
        t.get p = none)
  ∧ (∀ (ex : CommandExecutor I O S) (name : String) (ctx : I)
        (opts : List O) (st : S),
        1 ≤ (splitSpace name).length → (splitSpace name).length ≤ 3 →
        (ex.commands.resolve (splitSpace name) = none ∨
          ∃ m, ex.commands.resolve (splitSpace name) = some (.Node m)) →
        ex.execute name ctx opts st = none) := by
  have hmain : ∀ (t : CommandTree I O S) (p : List String),
      1 ≤ p.length → p.length ≤ 3 →
      (t.resolve p = none ∨ ∃ m, t.resolve p = some (.Node m)) →
      t.get p = none := by
    intro t p h1 _ hcase
    have hp : p ≠ [] := by
      intro h
      subst h
      simp at h1
    rw [CommandTree.get_eq_resolve p t hp]
    rcases hcase with h | ⟨m, h⟩ <;> simp [h, leafInfo]
  refine ⟨hmain, fun ex name ctx opts st h1 h2 hcase => ?_⟩
  simp [CommandExecutor.execute, hmain ex.commands (splitSpace name) h1 h2 hcase]

/-- Claim C3 witness: the path `"g"` terminates on a Group with a Leaf
descendant (`"g x"`), and dispatch on `"g"` returns nothing. -/
theorem claim_C3_witness :
    (1 ≤ (splitSpace "g").length ∧ (splitSpace "g").length ≤ 3 ∧
      groupExec.commands.resolve (splitSpace "g") =
        some (.Node [("x", .Leaf unitInfo1)])) ∧
    groupExec.execute "g" () [] () = none :=
  ⟨⟨by decide, by decide, rfl⟩,
    claim_C3.2 groupExec "g" () [] () (by decide) (by decide)
      (Or.inr ⟨[("x", .Leaf unitInfo1)], rfl⟩)⟩

/-- Claim C7: re-inserting at a path already bound to a `Leaf` silently
replaces the previous entry — last registration wins — and a subsequent
dispatch on that path runs only the most recently registered handler
(through its decoder) and returns that handler's response. -/
theorem claim_C7 {C I O S : Type} :
    (∀ (t : CommandTree I O S) (p : List String)
        (old newInfo : CommandInfo I O S), p ≠ [] →
        t.resolve p = some (.Leaf old) →
        ∃ t', t.insertE p newInfo = .ok t' ∧ t'.get p = some newInfo)
  ∧ (∀ (ex : CommandExecutor I O S) (spec : CommandStatics C O)
        (handler : C → I → S → Except String InteractionResponse)
        (old : CommandInfo I O S) (ctx : I) (opts : List O) (st : S),
        ex.commands.resolve (splitSpace spec.name) = some (.Leaf old) →
        ∃ ex', ex.register spec handler = .ok ex' ∧
          ex'.execute spec.name ctx opts st =
            some (match typedHandle spec.from_command_data handler ctx opts st with
                  | .ok r => r
                  | .error e => handlerErrorResponse e)) := by
  constructor
  · intro t p old newInfo hp hres
    obtain ⟨t', hins, hres'⟩ :=
      CommandTree.insertE_ok_of_resolve p t newInfo (.Leaf old) hp hres
    exact ⟨t', hins, by rw [CommandTree.get_eq_resolve p t' hp, hres']; rfl⟩
  · intro ex spec handler old ctx opts st hres
    have hp : splitSpace spec.name ≠ [] := splitSpace_ne_nil spec.name
    obtain ⟨t', hins, hres'⟩ :=
      CommandTree.insertE_ok_of_resolve (splitSpace spec.name) ex.commands
        { handle := typedHandle spec.from_command_data handler
          options := spec.options
          description := spec.description }
        (.Leaf old) hp hres
    refine ⟨⟨t'⟩, ?_, ?_⟩
    · simp [CommandExecutor.register, hins]
    · have hget := CommandTree.get_eq_resolve (splitSpace spec.name) t' hp
      rw [hres'] at hget
      simp [CommandExecutor.execute, hget, leafInfo]

/-- Claim C7 witness: re-registering `"ping"` (originally bound to
`unitInfo1`) with a second handler makes dispatch return the second
handler's response. -/
theorem claim_C7_witness :
    pingExec.commands.resolve (splitSpace pingStatics2.name) =
      some (.Leaf unitInfo1) ∧
    ∃ ex', pingExec.register pingStatics2 pingHandler2 = .ok ex' ∧
      ex'.execute pingStatics2.name () [] () = some pongResponse2 := by
  refine ⟨rfl, ?_⟩
  obtain ⟨ex', h1, h2⟩ :=
    claim_C7.2 pingExec pingStatics2 pingHandler2 unitInfo1 () [] () rfl
  exact ⟨ex', h1, h2.trans rfl⟩

/-- Claim C8: starting from the freshly constructed (default) executor,
after every successful sequence of register calls the root of the command
trie is still a `Node` (Group), never a `Leaf`. -/
theorem claim_C8 {I O S : Type} :
    ∀ (regs : List (String × CommandInfo I O S))
      (ex' : CommandExecutor I O S),
      CommandExecutor.registerAll .default regs = .ok ex' →
      ∃ m, ex'.commands = .Node m :=
  fun regs ex' h => CommandExecutor.registerAll_node regs [] ex' h

/-- Claim C8 witness: after registering `"ping"` and `"note add"` the root
is still a `Node`. -/
theorem claim_C8_witness :
    CommandExecutor.registerAll
      (.default : CommandExecutor Unit Unit Unit) regsC8 = .ok c8Result ∧
    ∃ m, c8Result.commands = .Node m :=
  ⟨rfl, claim_C8 regsC8 c8Result rfl⟩

/-- Claim C9: trie insertion is not total — registering `"foo"` and then
`"foo bar"` reaches the `panic!("Cannot insert into a leaf node")` branch
(modelled as the error of that message) instead of returning normally. -/
theorem claim_C9 :
    CommandExecutor.registerAll (.default : CommandExecutor Unit Unit Unit)
      c9Regs = .error "Cannot insert into a leaf node" := rfl

/-- Claim C10: inserting at a path whose final segment is currently bound
to a `Node` (Group) replaces the whole Group with the new `Leaf`:
afterwards `get` on the inserted path returns the new entry and `get` on
every strict extension of that path returns nothing. -/
theorem claim_C10 {I O S : Type} :
    ∀ (t : CommandTree I O S) (p : List String)
      (m : List (String × CommandTree I O S)) (info : CommandInfo I O S),
      p ≠ [] → t.resolve p = some (.Node m) →
      ∃ t', t.insertE p info = .ok t' ∧ t'.get p = some info ∧
        ∀ q, q ≠ [] → t'.get (p ++ q) = none := by
  intro t p m info hp hres
  obtain ⟨t', hins, hres'⟩ :=
    CommandTree.insertE_ok_of_resolve p t info (.Node m) hp hres
  refine ⟨t', hins, by rw [CommandTree.get_eq_resolve p t' hp, hres']; rfl, ?_⟩
  intro q hq
  have hpq : p ++ q ≠ [] := by
    intro h
    exact hp (List.append_eq_nil.mp h).1
  rw [CommandTree.get_eq_resolve (p ++ q) t' hpq,
    CommandTree.resolve_append p q t', hres']
  cases q with
  | nil => exact absurd rfl hq
  | cons qh qt => rfl

/-- Claim C10 witness: `"note"` is a Group holding the Leaf `"note add"`;
inserting a Leaf at `["note"]` succeeds, the new entry is found at
`["note"]`, and `["note", "add"]` no longer resolves. -/
theorem claim_C10_witness :
    noteTree.resolve ["note"] = some (.Node [("add", .Leaf unitInfo1)]) ∧
    ∃ t', noteTree.insertE ["note"] unitInfo2 = .ok t' ∧
      t'.get ["note"] = some unitInfo2 ∧
      ∀ q, q ≠ [] → t'.get (["note"] ++ q) = none :=
  ⟨rfl, claim_C10 noteTree ["note"] [("add", .Leaf unitInfo1)] unitInfo2
    (by simp) rfl⟩

/-- Claim C4: for every converter of an inner type T, decoding
`Option<T>` with no value present yields `None` and with a value present
yields `Some` of T's decode result (errors propagating unchanged); decoding
a bare T with no value present fails with `InvalidType`; and the schema of
`Option<T>` equals T's schema with `required` forced to `false` and every
other field untouched. -/
theorem claim_C4 {α : Type}
    (tconvO : Option CommandOptionValue → Except ConvError α)
    (tconvB : CommandOptionValue → Except ConvError α) (o : CommandOption) :
    optionConvert tconvO none = .ok none
  ∧ (∀ v, optionConvert tconvO (some v) = Except.map some (tconvO (some v)))
  ∧ bareConvert tconvB none = .error .invalidType
  ∧ ((optionToOption o).required = false ∧
      (optionToOption o).autocomplete = o.autocomplete ∧
      (optionToOption o).channel_types = o.channel_types ∧
      (optionToOption o).choices = o.choices ∧
      (optionToOption o).name = o.name ∧
      (optionToOption o).description = o.description ∧
      (optionToOption o).kind = o.kind ∧
      (optionToOption o).max_length = o.max_length ∧
      (optionToOption o).max_value = o.max_value ∧
      (optionToOption o).min_length = o.min_length ∧
      (optionToOption o).min_value = o.min_value) := by
  refine ⟨rfl, fun v => ?_, rfl,
    rfl, rfl, rfl, rfl, rfl, rfl, rfl, rfl, rfl, rfl, rfl⟩
  cases h : tconvO (some v) <;> simp [optionConvert, h, Except.map]

/-- Claim C5: every primitive numeric instantiation of `numeric_converter!`
(differing only in its `f64`-to-target cast) succeeds exactly on the
`Number` tag, returning the cast of the carried float — with no
`min_value`/`max_value` range check, since it succeeds on every payload —
and fails with `InvalidType` on every other tag. -/
theorem claim_C5 {α : Type} (cast : Float → α) :
    (∀ f, numericConvert cast (.number f) = .ok (cast f))
  ∧ (∀ v, v.isNumber = false → numericConvert cast v = .error .invalidType)
  ∧ (∀ v a, numericConvert cast v = .ok a → ∃ f, v = .number f ∧ a = cast f) := by
  refine ⟨fun f => rfl, fun v hv => ?_, fun v a h => ?_⟩
  · cases v <;> simp_all [CommandOptionValue.isNumber, numericConvert]
  · cases v <;> simp [numericConvert] at h
    exact ⟨_, rfl, h.symm⟩

/-- Claim C5 witness: the identity cast rejects a `String` value and
accepts a `Number` value. -/
theorem claim_C5_witness :
    (CommandOptionValue.string "x").isNumber = false ∧
    numericConvert (fun f => f) (.string "x") = .error .invalidType ∧
    numericConvert (fun f => f) (.number 2.5) = .ok 2.5 :=
  ⟨rfl, (claim_C5 (fun f => f)).2.1 (.string "x") rfl,
    (claim_C5 (fun f => f)).1 2.5⟩

/-- `checkUniqueValues` succeeds when the values are pairwise distinct and
disjoint from the seen-set. -/
theorem checkUniqueValues_ok :
    ∀ (l : List (String × String × String)) (seen : List String),
      (l.map fun p => p.2.2).Nodup →
      (∀ x ∈ l.map fun p => p.2.2, x ∉ seen) →
      checkUniqueValues l seen = .ok () := by
  intro l
  induction l with
  | nil => intro seen _ _; rfl
  | cons hd rest ih =>
    intro seen hnd hdisj
    obtain ⟨i, n, v⟩ := hd
    simp only [List.map_cons, List.nodup_cons, List.mem_map] at hnd
    have hv : v ∉ seen := hdisj v (by simp)
    simp only [checkUniqueValues, if_neg hv]
    refine ih (v :: seen) hnd.2 ?_
    intro x hx
    simp only [List.mem_cons, not_or]
    refine ⟨?_, hdisj x (by simp [hx])⟩
    intro hxv
    subst hxv
    simp only [List.mem_map] at hx
    exact hnd.1 (by obtain ⟨p, hp, hpx⟩ := hx; exact ⟨p, hp, hpx⟩)

/-- `checkUniqueValues` fails when the values repeat or meet the
seen-set. -/
theorem checkUniqueValues_err :
    ∀ (l : List (String × String × String)) (seen : List String),
      (¬ (l.map fun p => p.2.2).Nodup ∨
        ∃ x ∈ l.map fun p => p.2.2, x ∈ seen) →
      ∃ e, checkUniqueValues l seen = .error e := by
  intro l
  induction l with
  | nil =>
    intro seen h
    rcases h with h | ⟨x, hx, _⟩
    · simp at h
    · simp at hx
  | cons hd rest ih =>
    intro seen h
    obtain ⟨i, n, v⟩ := hd
    by_cases hv : v ∈ seen
    · exact ⟨.duplicateValue v, by simp [checkUniqueValues, hv]⟩
    · have hnext : ¬ (rest.map fun p => p.2.2).Nodup ∨
          ∃ x ∈ rest.map fun p => p.2.2, x ∈ v :: seen := by
        rcases h with h | ⟨x, hx, hxs⟩
        · simp only [List.map_cons, List.nodup_cons, not_and_or] at h
          rcases h with h | h
          · push_neg at h
            exact Or.inr ⟨v, h, by simp⟩
          · exact Or.inl h
        · simp only [List.map_cons, List.mem_cons] at hx
          rcases hx with hx | hx
          · exact absurd (hx ▸ hxs) hv
          · exact Or.inr ⟨x, hx, by simp [hxs]⟩
      obtain ⟨e, he⟩ := ih (v :: seen) hnext
      exact ⟨e, by simp [checkUniqueValues, hv, he]⟩

/-- The generated choice decode succeeds exactly on declared underlying
values. -/
theorem choiceMatch_ok_iff :
    ∀ (l : List (String × String × String)) (s : String),
      (∃ r, choiceMatch l s = .ok r) ↔ s ∈ l.map fun p => p.2.2 := by
  intro l
  induction l with
  | nil => intro s; simp [choiceMatch]
  | cons hd rest ih =>
    intro s
    obtain ⟨i, n, v⟩ := hd
    by_cases hv : v = s
    · subst hv
      simp [choiceMatch]
    · rw [List.map_cons]
      simp only [choiceMatch, if_neg hv, List.mem_cons]
      rw [ih s]
      exact ⟨fun h => Or.inr h, fun h => h.elim (fun hs => absurd hs.symm hv) id⟩

/-- Claim C6: the derive-time (registration-time) choice validation
rejects any enumeration of more than 25 variants, accepts up to 25
variants with pairwise-distinct underlying values, and rejects any
enumeration whose underlying values repeat, regardless of the total count;
the generated decode performs none of these checks — it merely matches the
raw string against the declared values. -/
theorem claim_C6 :
    (∀ vs : List ChoiceVariant, 25 < vs.length →
      choicesDerive vs = .error .tooManyVariants)
  ∧ (∀ vs : List ChoiceVariant, vs.length ≤ 25 →
      ((resolveVariants vs).map fun p => p.2.2).Nodup →
      ∃ out, choicesDerive vs = .ok out)
  ∧ (∀ vs : List ChoiceVariant,
      ¬ ((resolveVariants vs).map fun p => p.2.2).Nodup →
      ∀ out, choicesDerive vs ≠ .ok out)
  ∧ (∀ vs out, choicesDerive vs = .ok out → ∀ s,
      (∃ r, out.convert (.string s) = .ok r) ↔
        s ∈ (resolveVariants vs).map fun p => p.2.2) := by
  refine ⟨fun vs h => ?_, fun vs hlen hnd => ?_, fun vs hnd out => ?_,
    fun vs out hok s => ?_⟩
  · simp [choicesDerive, h]
  · have hok := checkUniqueValues_ok (resolveVariants vs) [] hnd (by simp)
    have hder : choicesDerive vs = .ok
        { to_option := (CommandOption.new .string).setChoices
            ((resolveVariants vs).map fun p => { name := p.2.1, value := p.2.2 })
          convert := choicesConvert (resolveVariants vs) } := by
      simp [choicesDerive, Nat.not_lt.mpr hlen, hok]
    exact ⟨_, hder⟩
  · by_cases hlen : 25 < vs.length
    · simp [choicesDerive, hlen]
    · obtain ⟨e, he⟩ := checkUniqueValues_err (resolveVariants vs) []
        (Or.inl hnd)
      simp [choicesDerive, hlen, he]
  · simp only [choicesDerive] at hok
    by_cases hlen : 25 < vs.length
    · rw [if_pos hlen] at hok
      simp at hok
    · rw [if_neg hlen] at hok
      cases hchk : checkUniqueValues (resolveVariants vs) [] with
      | error e => rw [hchk] at hok; simp at hok
      | ok u =>
        rw [hchk] at hok
        have hout := Except.ok.inj hok
        rw [← hout]
        exact choiceMatch_ok_iff (resolveVariants vs) s

/-- Claim C6 witness: 26 distinct variants are rejected, 25 distinct
variants are accepted, and two variants sharing the underlying value
`"same"` are rejected. -/
theorem claim_C6_witness :
    (25 < (letterVariants 26).length ∧
      choicesDerive (letterVariants 26) = .error .tooManyVariants)
  ∧ ((letterVariants 25).length ≤ 25 ∧
      ((resolveVariants (letterVariants 25)).map fun p => p.2.2).Nodup ∧
      ∃ out, choicesDerive (letterVariants 25) = .ok out)
  ∧ (¬ ((resolveVariants dupVariants).map fun p => p.2.2).Nodup ∧
      ∀ out, choicesDerive dupVariants ≠ .ok out) :=
  ⟨⟨by decide, claim_C6.1 (letterVariants 26) (by decide)⟩,
    ⟨by decide, by decide,
      claim_C6.2.1 (letterVariants 25) (by decide) (by decide)⟩,
    ⟨by decide, claim_C6.2.2.1 dupVariants (by decide)⟩⟩

/-- Claim C1 counterexample: `depth4Exec` holds a registered leaf at depth
four (path `a b c d`), yet `build_commands` does not fail — it returns the
schema, and the exported subcommand group `"b"` has an empty subcommand
list: the too-deep subtree under `"c"` is silently omitted. This refutes
the claim that a depth-four configuration is a fatal export-time error
that can never be silently swallowed. -/
theorem claim_C1_counterexample :
    depth4Exec.commands.get ["a", "b", "c", "d"] = some unitInfo1 ∧
    depth4Exec.build_commands = .ok
      [{ name := "a"
         description := "No description provided"
         contexts := exportContexts
         options := [.subCommandGroup "b" "No description provided" []] }] :=
  ⟨rfl, rfl⟩

/-- Claim C1 (amended): for every command trie whose root is a Group —
including tries containing nodes at depth four — `build_commands` succeeds
rather than aborting; a third-level Group's children are exported by
filtering: `Leaf` children become subcommands, and any deeper `Group`
child (a depth-four subtree) is silently omitted from the schema. -/
theorem claim_C1_amended {I O S : Type} :
    (∀ m : List (String × CommandTree I O S),
      ∃ cmds, CommandExecutor.build_commands ⟨.Node m⟩ = .ok cmds)
  ∧ (∀ children : List (String × CommandTree I O S),
      buildGroupSubcommands children = children.filterMap fun p =>
        match p.2 with
        | .Leaf info => some (p.1, info.description, info.options)
        | .Node _ => none) := by
  refine ⟨fun m => ⟨_, rfl⟩, fun children => ?_⟩
  induction children with
  | nil => rfl
  | cons hd rest ih =>
    obtain ⟨n, child⟩ := hd
    cases child <;> simp [buildGroupSubcommands, List.filterMap_cons, ih]

/-- Claim C2 counterexample: a decode failure and a handler failure do not
produce the same response. The decode failure on command `"c"` of
`exDecodeFail` yields the fixed plain-text ephemeral message, while the
handler failure on command `"c"` of `exHandlerFail` yields the ephemeral
components-v2 error container; the two responses differ (different
content, components and flags). This refutes the claim that both failures
are converted into the same single, uniform response. -/
theorem claim_C2_counterexample :
    exDecodeFail.execute "c" () [] () = some parseFailResponse ∧
    exHandlerFail.execute "c" () [] () = some (handlerErrorResponse "boom") ∧
    parseFailResponse ≠ handlerErrorResponse "boom" :=
  ⟨rfl, rfl, by decide⟩

/-- Claim C2 (amended): a decode (`from_command_data`) failure
short-circuits the handler call — the handler is never invoked (the result
is independent of it) and no partially constructed argument aggregate is
passed — and both decode failures and handler failures are caught and
converted into an invoker-only ephemeral error response, never propagating
out of dispatch; however the two failures are handled at different layers
and their responses are not identical: decode failure yields the fixed
plain-text ephemeral message from inside the handler adapter, handler
failure yields the ephemeral components error message built at the
executor boundary. -/
theorem claim_C2_amended {C I O S : Type} :
    (∀ (dec : List O → Except String C)
        (h h' : C → I → S → Except String InteractionResponse)
        (ctx : I) (opts : List O) (st : S) (e : String),
        dec opts = .error e →
        typedHandle dec h ctx opts st = .ok parseFailResponse ∧
        typedHandle dec h ctx opts st = typedHandle dec h' ctx opts st)
  ∧ (∀ (ex : CommandExecutor I O S) (name : String) (ctx : I)
        (opts : List O) (st : S) (info : CommandInfo I O S),
        ex.commands.get (splitSpace name) = some info →
        ∃ r, ex.execute name ctx opts st = some r)
  ∧ (parseFailResponse.isEphemeral = true ∧
      ∀ e, (handlerErrorResponse e).isEphemeral = true)
  ∧ (∀ e, parseFailResponse ≠ handlerErrorResponse e) := by
  refine ⟨fun dec h h' ctx opts st e hdec => ?_,
    fun ex name ctx opts st info hget => ?_, ⟨rfl, fun e => rfl⟩,
    fun e h => ?_⟩
  · constructor <;> simp [typedHandle, hdec]
  · have hrun : ex.execute name ctx opts st =
        some (match info.handle ctx opts st with
              | .ok r => r
              | .error e => handlerErrorResponse e) := by
      simp [CommandExecutor.execute, hget]
    exact ⟨_, hrun⟩
  · simp [parseFailResponse, handlerErrorResponse] at h

/-- Claim C2 witness: with the concrete failing decoder the adapter
returns the parse-failure response without consulting the handler, and
dispatch on the handler-failure executor still returns a response. -/
theorem claim_C2_witness :
    decodeFail [] = .error "bad data" ∧
    typedHandle decodeFail handlerOk () [] () = .ok parseFailResponse ∧
    exHandlerFail.commands.get (splitSpace "c") = some cInfoHandlerFail ∧
    ∃ r, exHandlerFail.execute "c" () [] () = some r :=
  ⟨rfl,
    (claim_C2_amended.1 decodeFail handlerOk handlerOk () [] () "bad data"
      rfl).1,
    rfl,
    (@claim_C2_amended Unit Unit Unit Unit).2.1 exHandlerFail "c" () [] ()
      cInfoHandlerFail rfl⟩

end TwilightCommands
